import Mathlib

/-!
Verification development for the gapi binding/pagination engine.

The Go source is shallowly embedded: runtime values handled through
`reflect` are modelled by a closed universe `GoVal` of values with a
type function `typeOf`, interface satisfaction is a fixed decidable
table, and the stateful paginator is modelled by explicit state
records.  Go's value receivers are modelled by functions that return
the updated receiver copy; call sites that discard the copy (as Go
does when the method was called on a value) discard it explicitly.
-/

namespace Gapi

/-- Semantic type descriptors standing for `reflect.Type` values.
`iface` marks interface types (capability constraints). -/
inductive GoType where
  | int
  | string
  | bool
  | float
  | slice (elem : GoType)
  | named (n : String)
  | ptr (t : GoType)
  | iface (n : String)
deriving DecidableEq, Repr

/-- A fixed model of Go's `Type.Implements`: the concrete types that
implement each interface of the modelled programs.  `httpClient` and
`*httpClient` implement `Client`, mirroring the repository's tests. -/
def implementsIface : GoType → GoType → Bool
  | .named "httpClient", .iface "Client" => true
  | .ptr (.named "httpClient"), .iface "Client" => true
  | _, _ => false

/-- The closed universe of runtime values passed as binding arguments
and defaults.  Slices appear only as (possibly empty) defaults, so
they carry primitive element lists. -/
inductive GoVal where
  | int (n : Int)
  | str (s : String)
  | bool (b : Bool)
  | intSlice (l : List Int)
  | strSlice (l : List String)
  | named (n : String)
  | ptrNamed (n : String)
deriving DecidableEq, Repr

/-- The dynamic type of a value, standing for `reflect.TypeOf`. -/
def typeOf : GoVal → GoType
  | .int _ => .int
  | .str _ => .string
  | .bool _ => .bool
  | .intSlice _ => .slice .int
  | .strSlice _ => .slice .string
  | .named n => .named n
  | .ptrNamed n => .ptr (.named n)

/-- Whether `reflect.ValueOf v` has slice or array kind. -/
def isSliceKind : GoVal → Bool
  | .intSlice _ => true
  | .strSlice _ => true
  | _ => false

/-- The `reflect` length of a slice value (0 for non-slices; the Go
code only calls `Len` after checking the kind). -/
def sliceLen : GoVal → Nat
  | .intSlice l => l.length
  | .strSlice l => l.length
  | _ => 0

/-- Embedding of `BindingParam` (src/unnamed/part_000): one declared
parameter slot of a binding's schema. -/
structure BindingParam where
  name : String
  variadic : Bool := false
  required : Bool := false
  defaultValue : GoVal := .int 0
  t : GoType := .int
  interfaceFlag : Bool := false
deriving DecidableEq, Repr

/-- Embedding of the `Param` constructor: a non-required param whose
type is reflected from the default value.  On this universe
`getReflectType` always takes its default branch. -/
def Param (name : String) (val : GoVal) : BindingParam :=
  { name := name, defaultValue := val, t := typeOf val }

/-- Embedding of the `ReqParam` constructor. -/
def ReqParam (name : String) (val : GoVal) : BindingParam :=
  { name := name, required := true, defaultValue := val, t := typeOf val }

/-- Embedding of the `VarParam` constructor. -/
def VarParam (name : String) (val : GoVal) : BindingParam :=
  { name := name, required := false, variadic := true, defaultValue := val, t := typeOf val }

/-- Structural schema errors produced by `checkParams`
(src/binding.go, lines 198-256), one constructor per `fmt.Errorf`. -/
inductive ParamError where
  | dupName (name : String) (i j : Nat)
  | reqAfterOptional (name : String) (i : Nat)
  | variadicNotLast (name : String) (i : Nat)
  | variadicRequired (name : String) (i : Nat)
  | variadicDefaultNotSlice (name : String) (i : Nat)
  | variadicDefaultNonEmpty (name : String) (i : Nat) (len : Nat)
deriving DecidableEq, Repr

/-- Loop body of `checkParams`: `namesToIdx` is the map of seen names,
`lastRequiredParam` the index state (it starts at 0 even when param 0
is not required, exactly as in the source), `i` the index, `total` the
full list length. -/
def checkParamsLoop (total : Nat) : List BindingParam → List (String × Nat) → Int → Nat →
    Option ParamError
  | [], _, _, _ => none
  | param :: rest, namesToIdx, lastRequiredParam, i =>
    match namesToIdx.lookup param.name with
    | some sameNameIdx => some (.dupName param.name i sameNameIdx)
    | none =>
      let namesToIdx := (param.name, i) :: namesToIdx
      if param.required then
        if lastRequiredParam ≤ (i : Int) - 2 then
          some (.reqAfterOptional param.name i)
        else
          checkParamsLoop total rest namesToIdx (i : Int) (i + 1)
      else if param.variadic then
        if i ≠ total - 1 then
          some (.variadicNotLast param.name i)
        else if param.required then
          some (.variadicRequired param.name i)
        else if ¬isSliceKind param.defaultValue then
          some (.variadicDefaultNotSlice param.name i)
        else if sliceLen param.defaultValue ≠ 0 then
          some (.variadicDefaultNonEmpty param.name i (sliceLen param.defaultValue))
        else
          checkParamsLoop total rest namesToIdx lastRequiredParam (i + 1)
      else
        checkParamsLoop total rest namesToIdx lastRequiredParam (i + 1)

/-- Embedding of the package-level `checkParams` (src/binding.go):
structural validation of an ordered parameter list.  `none` means the
list was accepted. -/
def checkParams (params : List BindingParam) : Option ParamError :=
  checkParamsLoop params.length params [] 0 0

/-- State of the `Params` bulk constructor's greedy grouping loop:
the output list so far, the partially built param, the slot counter
(`currentBindingArg`) and the `skipUntilName` recovery flag. -/
structure ParamsState where
  bindingParams : List BindingParam
  currentBinding : BindingParam
  currentBindingArg : Nat
  skipUntilName : Bool
deriving DecidableEq, Repr

def emptyBindingParam : BindingParam :=
  { name := "", defaultValue := .int 0, t := .int }

/-- Update the last appended param in place, as the Go code does with
`bindingParams[lastBindingParamIdx]` (the list is never empty when the
source indexes it, but a no-op on `[]` keeps the model total). -/
def modifyLast (f : BindingParam → BindingParam) : List BindingParam → List BindingParam
  | [] => []
  | [p] => [f p]
  | p :: rest => p :: modifyLast f rest

/-- The `resetCurrentBinding` closure of `Params`. -/
def resetCurrentBinding (s : ParamsState) : ParamsState :=
  { s with currentBinding := emptyBindingParam, currentBindingArg := 0 }

/-- The `setDefaultValue` closure of `Params`: finalize name, type and
default, append the param, and open slot 2 for the optional flags. -/
def setDefaultValue (s : ParamsState) (t : GoType) (interfaceFlag : Bool) (defVal : GoVal) :
    ParamsState :=
  let cb := { s.currentBinding with defaultValue := defVal, t := t, interfaceFlag := interfaceFlag }
  let s := { s with bindingParams := s.bindingParams ++ [cb] }
  { resetCurrentBinding s with currentBindingArg := 2 }

/-- One iteration of the `Params` loop (src/unnamed/part_000, lines
190-245).  On this value universe `getReflectType arg` is always
`(typeOf arg, false, arg)`, so the kind switch inspects `typeOf`. -/
def paramsStep (s : ParamsState) (arg : GoVal) : ParamsState :=
  match typeOf arg with
  | .string =>
    let s :=
      if s.currentBindingArg = 2 ∨ s.currentBindingArg = 3 then resetCurrentBinding s else s
    if s.currentBindingArg = 0 then
      match arg with
      | .str name =>
        { s with skipUntilName := false,
                 currentBinding := { s.currentBinding with name := name },
                 currentBindingArg := s.currentBindingArg + 1 }
      | _ => s
    else
      -- fallthrough into the default case: a string in slot 1 is a default value
      if s.skipUntilName then s
      else if s.currentBindingArg = 1 then setDefaultValue s (typeOf arg) false arg
      else s
  | .bool =>
    if s.skipUntilName then s
    else
      match s.currentBindingArg, arg with
      | 1, _ => setDefaultValue s (typeOf arg) false arg
      | 2, .bool b =>
        { s with bindingParams := modifyLast (fun p => { p with required := b }) s.bindingParams,
                 currentBindingArg := s.currentBindingArg + 1 }
      | 3, .bool b =>
        let setVar : BindingParam → BindingParam := fun p =>
          { p with variadic := b, required := if b then false else p.required }
        let s := { s with bindingParams := modifyLast setVar s.bindingParams }
        resetCurrentBinding s
      | _, _ =>
        resetCurrentBinding { s with skipUntilName := true }
  | _ =>
    if s.skipUntilName then s
    else if s.currentBindingArg = 1 then setDefaultValue s (typeOf arg) false arg
    else s

/-- Embedding of the bulk `Params` constructor: greedy grouping of a
flat heterogeneous sequence into `BindingParam`s. -/
def Params (args : List GoVal) : List BindingParam :=
  (args.foldl paramsStep
    { bindingParams := [], currentBinding := emptyBindingParam,
      currentBindingArg := 0, skipUntilName := false }).bindingParams

/-- Validation (argument-level) errors of `TypeCheckArgs`, one
constructor per `fmt.Errorf` in src/binding.go lines 342-381. -/
inductive ValidationError where
  | variadicElemMismatch (name : String) (elemType : GoType) (j : Nat) (argType : GoType)
  | typeMismatch (name : String) (paramType : GoType) (i : Nat) (argType : GoType)
  | requiredNotProvided (name : String) (i : Nat)
deriving DecidableEq, Repr

/-- Errors surfaced by `TypeCheckArgs`: either the cached structural
(schema) error or a validation error. -/
inductive TCError where
  | schema (e : ParamError)
  | validation (e : ValidationError)
deriving DecidableEq, Repr

/-- The `typeCheck` closure of `TypeCheckArgs`: interface params check
`Implements`, variadic params compare the element type, others compare
types for equality.  Returns (argType, pass). -/
def typeCheckOne (param : BindingParam) (arg : GoVal) : GoType × Bool :=
  let argType := typeOf arg
  if param.interfaceFlag then
    (argType, implementsIface argType param.t)
  else if param.variadic then
    match param.t with
    | .slice elem => (argType, elem = argType)
    | _ => (argType, false)
  else
    (argType, argType = param.t)

/-- Check the tail of actual args against a variadic param's element
type (the inner `for j, nextArg := range args[i:]` loop). -/
def variadicCheck (param : BindingParam) : List GoVal → Nat → Except TCError (List GoVal)
  | [], _ => .ok []
  | nextArg :: rest, j =>
    let (argType, pass) := typeCheckOne param nextArg
    if pass then
      match variadicCheck param rest (j + 1) with
      | .ok tail => .ok (nextArg :: tail)
      | .error e => .error e
    else
      match param.t with
      | .slice elem => .error (.validation (.variadicElemMismatch param.name elem j argType))
      | t => .error (.validation (.variadicElemMismatch param.name t j argType))

/-- The main loop of `TypeCheckArgs` (src/binding.go lines 342-381),
walking params and args in lockstep: a variadic param consumes the
whole tail and stops the loop; a missing required param is fatal; a
missing optional non-variadic param contributes its default. -/
def typeCheckLoop : List BindingParam → List GoVal → Nat → Except TCError (List GoVal)
  | [], _, _ => .ok []
  | param :: rest, [], i =>
    if param.required then
      .error (.validation (.requiredNotProvided param.name i))
    else if ¬param.required ∧ ¬param.variadic then
      match typeCheckLoop rest [] (i + 1) with
      | .ok tail => .ok (param.defaultValue :: tail)
      | .error e => .error e
    else
      typeCheckLoop rest [] (i + 1)
  | param :: rest, arg :: args, i =>
    if param.variadic then
      variadicCheck param (arg :: args) 0
    else
      let (argType, pass) := typeCheckOne param arg
      if pass then
        match typeCheckLoop rest args (i + 1) with
        | .ok tail => .ok (arg :: tail)
        | .error e => .error e
      else
        .error (.validation (.typeMismatch param.name param.t i argType))

/-- Embedding of `bindingProto` (src/binding.go).  The four pipeline
step methods are opaque tokens (their bodies belong to user code); the
params method is the schema list it returns.  `attrsRef` is the
reference to the shared attribute map (Go maps are references: copying
the struct copies the reference, not the map). -/
structure BindingProto where
  requestMethodTok : Option Nat := none
  responseWrapperMethodTok : Option Nat := none
  responseUnwrappedMethodTok : Option Nat := none
  responseMethodTok : Option Nat := none
  paramErr : Option ParamError := none
  checkedParams : Bool := false
  paramsMethod : Option (List BindingParam) := none
  paginated : Bool := false
  name : String := ""
  nameSet : Bool := false
  attrsRef : Nat := 0
deriving DecidableEq, Repr

namespace BindingProto

/-- The `checkParams` method (value receiver): runs the structural
check once per receiver copy and records the result on that copy. -/
def checkParamsMethod (b : BindingProto) (params : List BindingParam) : BindingProto :=
  if ¬b.checkedParams then
    { b with paramErr := checkParams params, checkedParams := true }
  else
    b

/-- The full effect of the `Params` method on its own receiver copy:
it returns the schema and the mutated copy.  Go calls this method
through a value receiver, so the mutated copy is discarded at every
call site — `ParamsCall` below models exactly that. -/
def ParamsRun (b : BindingProto) : List BindingParam × BindingProto :=
  match b.paramsMethod with
  | none => ([], b)
  | some params => (params, b.checkParamsMethod params)

/-- `b.Params()` as seen by a caller holding `b` by value: the updated
receiver copy produced inside the method is discarded. -/
def ParamsCall (b : BindingProto) : List BindingParam :=
  (b.ParamsRun).1

/-- Embedding of `SetParamsMethod`: resets the cached check state,
calls `Params` (whose receiver-copy effect is discarded), and returns
the updated copy. -/
def SetParamsMethod (b : BindingProto) (method : List BindingParam) : BindingProto :=
  let b := { b with paramsMethod := some method, paramErr := none, checkedParams := false }
  let _ := b.ParamsCall
  b

/-- Embedding of `TypeCheckArgs` (src/binding.go lines 321-384): call
`Params` (a value-receiver call, so any `paramErr` it computes is
lost), consult the receiver's own `paramErr` field, then run the
lockstep type-check loop. -/
def TypeCheckArgs (b : BindingProto) (args : List GoVal) : Except TCError (List GoVal) :=
  let params := b.ParamsCall
  match b.paramErr with
  | some e => .error (.schema e)
  | none =>
    if params.length > 0 then
      typeCheckLoop params args 0
    else
      .ok []

/-- Embedding of `SetName`. -/
def SetName (b : BindingProto) (name : String) : BindingProto :=
  { b with name := name, nameSet := true }

/-- Embedding of `SetPaginated`. -/
def SetPaginated (b : BindingProto) (paginated : Bool) : BindingProto :=
  { b with paginated := paginated }

/-- Embedding of `SetResponseWrapperMethod`. -/
def SetResponseWrapperMethod (b : BindingProto) (m : Nat) : BindingProto :=
  { b with responseWrapperMethodTok := some m }

/-- Embedding of `SetResponseUnwrappedMethod`. -/
def SetResponseUnwrappedMethod (b : BindingProto) (m : Nat) : BindingProto :=
  { b with responseUnwrappedMethodTok := some m }

/-- Embedding of `SetResponseMethod`. -/
def SetResponseMethod (b : BindingProto) (m : Nat) : BindingProto :=
  { b with responseMethodTok := some m }

end BindingProto

/-- Embedding of `NewBindingChain`: a fresh prototype with only the
request method set (token 0) and a fresh attribute map reference. -/
def NewBindingChain (attrsRef : Nat) : BindingProto :=
  { requestMethodTok := some 0, attrsRef := attrsRef }

/-- Errors observable from `Execute`. -/
inductive ExecError where
  | typeCheckFailed (e : TCError)
  | runFailed (msg : String)
deriving DecidableEq, Repr

/-- Embedding of the argument flow of `Execute` (src/binding.go lines
386-415): the args are replaced by the output of `TypeCheckArgs`, and
the request builder is invoked with exactly that normalized list.  The
first component records the argument list handed to the
request-builder step (`none` when the type check failed and the
builder was never invoked); `run` abstracts the external transport
acting on the built request. -/
def ExecuteModel (b : BindingProto) (run : List GoVal → Except String GoVal)
    (args : List GoVal) : Option (List GoVal) × Except ExecError GoVal :=
  match b.TypeCheckArgs args with
  | .error e => (none, .error (.typeCheckFailed e))
  | .ok newArgs =>
    match run newArgs with
    | .error msg => (some newArgs, .error (.runFailed msg))
    | .ok v => (some newArgs, .ok v)

/-- The heap of attribute maps: each binding's `attrs` map lives at
its `attrsRef`.  Copying a `bindingProto` (value receiver, setter)
copies the reference, so copies share the same entry. -/
def AttrStore : Type := Nat → List (String × GoVal)

/-- The observable attributes of a binding (`Attrs()` / the map passed
to `Client.Run`). -/
def attrsOf (store : AttrStore) (b : BindingProto) : List (String × GoVal) :=
  store b.attrsRef

/-- An `Attr` function: `pure` evaluates under any client, while
`needsClient` panics when the client is nil (evaluation recovers the
panic and reports failure), as in the repository's attr examples. -/
inductive AttrF where
  | pure (key : String) (val : GoVal)
  | needsClient (key : String) (val : GoVal)
deriving DecidableEq, Repr

/-- The `evaluate` closure of `evaluateAttrs`: `none` models a
recovered panic (`ok = false`). -/
def evaluateAttr (hasClient : Bool) : AttrF → Option (String × GoVal)
  | .pure k v => some (k, v)
  | .needsClient k v => if hasClient then some (k, v) else none

/-- Insert/overwrite a key in an attribute map (`b.attrs[key] = val`). -/
def attrInsert (m : List (String × GoVal)) (k : String) (v : GoVal) : List (String × GoVal) :=
  match m with
  | [] => [(k, v)]
  | (k', v') :: rest => if k' = k then (k, v) :: rest else (k', v') :: attrInsert rest k v

/-- Embedding of `evaluateAttrs` (src/binding.go lines 446-474): every
pending attr that evaluates is written into the shared map and removed
from the queue; failures stay pending. -/
def evaluateAttrs (hasClient : Bool) (store : AttrStore) (ref : Nat)
    (queue : List AttrF) : AttrStore × List AttrF :=
  match queue with
  | [] => (store, [])
  | attr :: rest =>
    match evaluateAttr hasClient attr with
    | some (k, v) =>
      let store' : AttrStore := fun r => if r = ref then attrInsert (store r) k v else store r
      evaluateAttrs hasClient store' ref rest
    | none =>
      let (store', rest') := evaluateAttrs hasClient store ref rest
      (store', attr :: rest')

/-- The pending-attr queue is also owned per binding; we keep it in
the binding state extended with a queue to model `AddAttrs`. -/
structure BindingWithQueue where
  proto : BindingProto
  attrFuncs : List AttrF
deriving DecidableEq, Repr

/-- Embedding of `AddAttrs` (src/binding.go lines 438-444): the value
receiver appends to its queue copy and immediately evaluates with a
nil client, writing evaluated attrs into the map shared (by
reference) with the original binding, then returns the copy. -/
def AddAttrs (store : AttrStore) (b : BindingWithQueue) (attrs : List AttrF) :
    AttrStore × BindingWithQueue :=
  let res := evaluateAttrs false store b.proto.attrsRef (b.attrFuncs ++ attrs)
  (res.1, { b with attrFuncs := res.2 })

/-- Embedding of `RateLimitType`. -/
inductive RateLimitKind where
  | request
  | resource
deriving DecidableEq, Repr

/-- A rate-limit report from the oracle (`RateLimit` interface): reset
instant, remaining and used counts, and the kind tag.  Time is an
abstract integral clock. -/
structure RateLimitInfo where
  reset : Int
  remaining : Int
  used : Int
  kind : RateLimitKind
deriving DecidableEq, Repr

/-- The fetch-with-retries prelude of `paginatorCheckRateLimit`
(src/api_test.go lines 748-758): one initial `LatestRateLimit` plus up
to three retries, stopping at the first non-nil answer. -/
def latestAfterRetries (fetch : Nat → Option RateLimitInfo) : Option RateLimitInfo :=
  match fetch 0 with
  | some rl => some rl
  | none =>
    match fetch 1 with
    | some rl => some rl
    | none =>
      match fetch 2 with
      | some rl => some rl
      | none => fetch 3

/-- Outcome of one `paginatorCheckRateLimit` call.  `panicked` models
the nil-pointer dereference of `**limitArg` (the `limitArg == nil`
test inspects the outer `**float64`, which is the address of the
paginator's field and therefore never nil, so the locate loop is
skipped and the nil inner pointer is dereferenced; when the outer
pointer itself were nil, the locate loop's `**limitArg = val` write or
the following read dereferences it, so that branch panics as well).
`err` carries the page number of the rate-limit-inconsistency error;
`slept` records whether the call blocked until the reset instant. -/
inductive RLResult where
  | panicked
  | out (ignoreFirstRequest : Bool) (ok : Bool) (err : Option Nat) (slept : Bool)
deriving DecidableEq, Repr

/-- Embedding of `paginatorCheckRateLimit` (src/api_test.go lines
736-842).  `limitArg` models the `**float64` argument: the outer
`Option` is the double pointer (`none` = nil), the inner `Option` the
paginator's `limitArg` field; integral float values are carried as
`Int`. -/
def paginatorCheckRateLimit : Bool → (Nat → Option RateLimitInfo) → Int →
    Option (Option Int) → Nat → Nat → List BindingParam → List GoVal → RLResult
  | false, _, _, _, _, _, _, _ => .out false false none false
  | true, fetch, now, limitArg, page, currentPageLen, _params, _args =>
    match latestAfterRetries fetch with
    | some rl =>
      if rl.reset > now then
        match rl.kind with
        | .request => .out false true none (decide (rl.remaining = 0))
        | .resource =>
          if (currentPageLen : Int) > rl.remaining then
            .out false true none true
          else if page = 1 ∨ currentPageLen > 0 then
            match limitArg with
            | none => .panicked
            | some none => .panicked
            | some (some v) => .out false true none (decide ((v : Int) > rl.remaining))
          else
            .out false true none false
      else if page = 1 then
        .out true true none false
      else
        .out false true none false
    | none =>
      if page = 1 then
        .out true true none false
      else
        .out false true (some page) false

/-- A value of the paginated binding's return type.  `items` is the
underlying collection (the slice elements, or the mergeable's
contents); the flags model which optional capabilities the value's
dynamic type offers. -/
structure RetVal where
  items : List GoVal
  isMergeableVal : Bool := false
  hasMore : Bool := false
  isAfterable : Bool := false
  afterVal : GoVal := .int 0
deriving DecidableEq, Repr

/-- The two recognized pagination conventions. -/
inductive ParamSetKind where
  | pageSet
  | afterSet
deriving DecidableEq, Repr

/-- Embedding of `checkPaginatorParams`: the first convention (in
priority order page, after) whose parameter set is covered by the
binding's parameter names; `none` is `unknownParamSet`. -/
def checkPaginatorParams (params : List BindingParam) : Option ParamSetKind :=
  if params.any (fun p => p.name = "page") then some .pageSet
  else if params.any (fun p => p.name = "after") then some .afterSet
  else none

/-- Errors of `GetPaginatorParamValue`. -/
inductive GetPPVError where
  | noAfterParamForNil
  | notAfterable
deriving DecidableEq, Repr

/-- The `reflect.Zero` value for a declared type (used for the "after"
parameter when no resource has been fetched yet). -/
def zeroValue : GoType → GoVal
  | .int => .int 0
  | .string => .str ""
  | .bool => .bool false
  | .float => .int 0
  | .slice .string => .strSlice []
  | .slice _ => .intSlice []
  | .named n => .named n
  | .ptr (.named n) => .ptrNamed n
  | .ptr _ => .int 0
  | .iface _ => .int 0

/-- Embedding of `paginatorParamSet.GetPaginatorParamValue`
(src/api_test.go lines 604-626): the single paginator parameter for
the upcoming call.  `resource = none` models a nil `any` (the untyped
paginator before its first fetch). -/
def GetPaginatorParamValue (pps : ParamSetKind) (params : List BindingParam)
    (resource : Option RetVal) (page : Nat) : Except GetPPVError (String × GoVal) :=
  match pps with
  | .pageSet => .ok ("page", .int page)
  | .afterSet =>
    match resource with
    | none =>
      match params.find? (fun p => p.name = "after") with
      | some param => .ok ("after", zeroValue param.t)
      | none => .error .noAfterParamForNil
    | some r =>
      if r.isAfterable then .ok ("after", r.afterVal)
      else .error .notAfterable

/-- Insert a value at an index of an argument list
(`slices.AddElems`); an index at or beyond the end appends. -/
def insertAt (l : List GoVal) (v : GoVal) (i : Nat) : List GoVal :=
  l.take i ++ v :: l.drop i

/-- Embedding of `InsertPaginatorParamValues` (src/api_test.go lines
628-654) for the single paginator value `(pagName, pagVal)`: walk the
params, inserting the paginator value at its schema position and
defaults into other unfilled slots, stopping once the paginator value
is placed; an unfilled required slot is fatal (the partial argument
list is still returned, as in the source). -/
def insertPPVLoop (pagName : String) (pagVal : GoVal) :
    List BindingParam → List GoVal → Nat → List GoVal × Option (String × Nat)
  | [], args, _ => (args, none)
  | param :: rest, args, paramNo =>
    if param.name = pagName then
      -- insert, mark the set as used, and break out of the loop
      (insertAt args pagVal paramNo, none)
    else if paramNo ≥ args.length then
      if param.required then
        (args, some (param.name, paramNo))
      else
        insertPPVLoop pagName pagVal rest (insertAt args param.defaultValue paramNo) (paramNo + 1)
    else
      insertPPVLoop pagName pagVal rest args (paramNo + 1)

def InsertPaginatorParamValues (params : List BindingParam) (args : List GoVal)
    (pagName : String) (pagVal : GoVal) : List GoVal × Option (String × Nat) :=
  insertPPVLoop pagName pagVal params args 0

/-- State of a `typedPaginator`.  `fetch` is the oracle's
`LatestRateLimit` answer stream for one check, `now` the abstract
clock, `limitArg` the (always-nil-in-practice) limit slot, `zeroPage`
the zero value of the return type, and `calls` the number of
`binding.Execute` invocations made so far (the index into the
execution-outcome stream). -/
structure PagState where
  isRL : Bool
  fetch : Nat → Option RateLimitInfo
  now : Int
  usingRateLimitedClient : Bool := false
  limitArg : Option Int := none
  params : List BindingParam
  paramSet : ParamSetKind
  args : List GoVal
  page : Nat
  currentPage : RetVal
  retMergeable : Bool
  zeroPage : RetVal
  calls : Nat := 0

/-- The inner error of one `execute()` attempt: either the rate-limit
inconsistency error from the check, or the binding's own failure. -/
inductive ExecInner where
  | rlInconsistent (page : Nat)
  | bindingErr (msg : String)
deriving DecidableEq, Repr

/-- Errors returned by `Next`, each constructor one wrapping site. -/
inductive NextError where
  | getParamValues (page : Nat)
  | onPage (page : Nat) (inner : ExecInner)
  | onPageAfterIgnore (page : Nat) (inner : ExecInner)
deriving DecidableEq, Repr

/-- How a `Next` call ended. -/
inductive NextRes where
  | ok
  | err (e : NextError)
  | panicked
deriving DecidableEq, Repr

/-- Output of the `Next` model: the new paginator state, the result,
and how many times `binding.Execute` was invoked during the call. -/
structure NextOut where
  st : PagState
  res : NextRes
  execCalls : Nat

/-- Abbreviation for the rate-limit check as `Next` invokes it: note
that the original caller-supplied `p.args` (not the list with the
paginator value inserted) is passed, and the limit slot is passed by
address, so the outer pointer is never nil. -/
def checkRLFromNext (p : PagState) : RLResult :=
  paginatorCheckRateLimit p.isRL p.fetch p.now (some p.limitArg) p.page
    p.currentPage.items.length p.params p.args

/-- The argument list `Next` hands to `binding.Execute`: the
caller-supplied args with the paginator value inserted at its schema
position (or the raw args when the paginator value could not be
computed, a case in which `Next` returns before executing). -/
def nextArgsIns (p : PagState) : List GoVal :=
  match GetPaginatorParamValue p.paramSet p.params (some p.currentPage) p.page with
  | .error _ => p.args
  | .ok (pagName, pagVal) => (InsertPaginatorParamValues p.params p.args pagName pagVal).1

/-- The second `execute()` attempt of `Next` after an ignored first
request: the rate-limit check runs again (on the state left by the
failed first attempt), then `binding.Execute`; `already` counts the
executions already performed. -/
def nextRetry (exec : Nat → List GoVal → Except String RetVal) (argsIns : List GoVal)
    (p : PagState) (already : Nat) : NextOut :=
  match checkRLFromNext p with
  | .panicked => ⟨p, .panicked, already⟩
  | .out _ ok2 errOpt2 _ =>
    let p1 := { p with usingRateLimitedClient := ok2 }
    match errOpt2 with
    | some pg =>
      ⟨{ p1 with currentPage := p1.zeroPage },
        .err (.onPageAfterIgnore p1.page (.rlInconsistent pg)), already⟩
    | none =>
      match exec p1.calls argsIns with
      | .ok v =>
        ⟨{ p1 with currentPage := v, page := p1.page + 1, calls := p1.calls + 1 },
          .ok, already + 1⟩
      | .error m =>
        ⟨{ p1 with currentPage := p1.zeroPage, calls := p1.calls + 1 },
          .err (.onPageAfterIgnore p1.page (.bindingErr m)), already + 1⟩

/-- Embedding of `typedPaginator.Next` (src/api_test.go lines
844-892).  `exec i args` is the outcome of the (i+1)-th
`binding.Execute` invocation of this session when handed `args`.  A
failing attempt overwrites `currentPage` with the zero return value
(the closure's named return).  The error produced by
`InsertPaginatorParamValues` is wrapped but then overwritten by the
`execute()` assignment (the source lacks a `return` there), so the
call proceeds with the partial argument list. -/
def nextModel (exec : Nat → List GoVal → Except String RetVal) (p : PagState) : NextOut :=
  match GetPaginatorParamValue p.paramSet p.params (some p.currentPage) p.page with
  | .error _ => ⟨p, .err (.getParamValues p.page), 0⟩
  | .ok _ =>
    let argsIns := nextArgsIns p
    match checkRLFromNext p with
    | .panicked => ⟨p, .panicked, 0⟩
    | .out ign1 ok1 errOpt1 _ =>
      let p1 := { p with usingRateLimitedClient := ok1 }
      match errOpt1 with
      | some pg =>
        if ¬ign1 then
          ⟨{ p1 with currentPage := p1.zeroPage },
            .err (.onPage p1.page (.rlInconsistent pg)), 0⟩
        else
          nextRetry exec argsIns { p1 with currentPage := p1.zeroPage } 0
      | none =>
        match exec p1.calls argsIns with
        | .ok v =>
          ⟨{ p1 with currentPage := v, page := p1.page + 1, calls := p1.calls + 1 }, .ok, 1⟩
        | .error m =>
          let p2 := { p1 with currentPage := p1.zeroPage, calls := p1.calls + 1 }
          if ¬ign1 then
            ⟨p2, .err (.onPage p2.page (.bindingErr m)), 1⟩
          else
            nextRetry exec argsIns p2 1

/-- Embedding of `typedPaginator.Continue` (src/api_test.go lines
722-732): true on page 1 unconditionally, otherwise true iff the last
page reported more (mergeable return types) or was non-empty (slice
return types). -/
def typedContinue (p : PagState) : Bool :=
  let hasMore :=
    if p.retMergeable then
      if p.currentPage.isMergeableVal then p.currentPage.hasMore else false
    else
      decide (p.currentPage.items.length > 0)
  decide (p.page = 1) || hasMore

/-- Embedding of the untyped `paginator.Continue` (src/api_test.go
lines 1055-1065).  `currentPage = none` models the nil `any` held
before the first fetch; in the slice branch `reflect.ValueOf(nil)` is
the zero `reflect.Value` and `Len()` panics on it, modelled by
`.error ()`. -/
def paginatorContinueUntyped (retMergeable : Bool) (page : Nat)
    (currentPage : Option RetVal) : Except Unit Bool :=
  if retMergeable then
    let hasMore :=
      match currentPage with
      | some r => if r.isMergeableVal then r.hasMore else false
      | none => false
    .ok (decide (page = 1) || hasMore)
  else
    match currentPage with
    | none => .error ()
    | some r => .ok (decide (page = 1) || decide (r.items.length > 0))

/-- Embedding of `typedPaginator.merge` (src/api_test.go lines
894-908), called after a successful `Next` (so `p.page = 2` means the
first page was just fetched).  `mergeFn` is the user type's
`Mergeable.Merge` implementation (external code). -/
def typedMerge (mergeFn : RetVal → RetVal → Except String RetVal) (p : PagState)
    (pages : RetVal) : Except String RetVal :=
  if p.retMergeable then
    if p.page = 2 then .ok p.currentPage
    else mergeFn pages p.currentPage
  else
    .ok { pages with items := pages.items ++ p.currentPage.items }

/-- Why the `All` loop stopped. -/
inductive AllExit where
  | done
  | nextErr (e : NextError)
  | mergeErr (m : String)
  | panicked
deriving DecidableEq, Repr

/-- Fuel-indexed embedding of the `All` loop (src/api_test.go lines
910-925): while `Continue()`, fetch the next page and merge it into
the aggregate; the partial aggregate is returned alongside the first
error.  `none` means the fuel ran out before the loop finished. -/
def allLoop (mergeFn : RetVal → RetVal → Except String RetVal)
    (exec : Nat → List GoVal → Except String RetVal) :
    Nat → PagState → RetVal → Option (RetVal × AllExit)
  | 0, _, _ => none
  | fuel + 1, p, pages =>
    if typedContinue p then
      let o := nextModel exec p
      match o.res with
      | .panicked => some (pages, .panicked)
      | .err e => some (pages, .nextErr e)
      | .ok =>
        match typedMerge mergeFn o.st pages with
        | .error m => some (pages, .mergeErr m)
        | .ok pages' => allLoop mergeFn exec fuel o.st pages'
    else
      some (pages, .done)

/-- Embedding of `typedPaginator.All`: run the loop from the zero
aggregate. -/
def AllModel (mergeFn : RetVal → RetVal → Except String RetVal)
    (exec : Nat → List GoVal → Except String RetVal) (fuel : Nat) (p : PagState) :
    Option (RetVal × AllExit) :=
  allLoop mergeFn exec fuel p p.zeroPage

/-- Whether one actual argument passes the `typeCheck` closure for a
param. -/
def typeCheckPass (param : BindingParam) (arg : GoVal) : Bool :=
  (typeCheckOne param arg).2

/-- Spec-side satisfaction: the argument list supplies every required
parameter and every supplied argument has the declared type (or
implements the declared interface); a variadic param's tail must pass
element-wise. -/
def argsMatch : List BindingParam → List GoVal → Bool
  | [], _ => true
  | param :: rest, [] => !param.required && argsMatch rest []
  | param :: rest, arg :: args =>
    if param.variadic then (arg :: args).all (typeCheckPass param)
    else typeCheckPass param arg && argsMatch rest args

/-- Spec-side normalization: supplied arguments pass through in place,
a variadic param absorbs the whole remaining tail, a missing
non-variadic slot is filled by its declared default, and a variadic
param with no actuals contributes nothing. -/
def normalizeArgs : List BindingParam → List GoVal → List GoVal
  | [], _ => []
  | param :: rest, [] =>
    if param.variadic then normalizeArgs rest []
    else param.defaultValue :: normalizeArgs rest []
  | param :: rest, arg :: args =>
    if param.variadic then arg :: args
    else arg :: normalizeArgs rest args

/-- All required params precede all non-required params (§3 invariant
(b)). -/
def requiredFirst : List BindingParam → Bool
  | [] => true
  | p :: ps => if p.required then requiredFirst ps else ps.all (fun q => !q.required)

/-- A variadic param, if present, is the last element (§3 invariant
(c), which also bounds the count to one). -/
def variadicOnlyLast : List BindingParam → Bool
  | [] => true
  | p :: ps => (!p.variadic || ps.isEmpty) && variadicOnlyLast ps

/-- The §3 structural invariants of an ordered parameter list: unique
names, required params a contiguous prefix, the variadic param (if
any) last, and variadic params never required. -/
def specStructValid (params : List BindingParam) : Prop :=
  (params.map BindingParam.name).Nodup
  ∧ requiredFirst params = true
  ∧ variadicOnlyLast params = true
  ∧ ∀ p ∈ params, p.variadic = true → p.required = false

instance (params : List BindingParam) : Decidable (specStructValid params) := by
  unfold specStructValid
  infer_instance

theorem variadicCheck_all_ok (param : BindingParam) :
    ∀ (l : List GoVal) (j : Nat), l.all (typeCheckPass param) = true →
      variadicCheck param l j = .ok l := by
  intro l
  induction l with
  | nil => intro j _; rfl
  | cons a as ih =>
    intro j h
    simp only [List.all_cons, Bool.and_eq_true] at h
    have hpass : (typeCheckOne param a).2 = true := h.1
    simp only [variadicCheck, hpass, ih (j + 1) h.2]
    simp

theorem typeCheckLoop_ok (params : List BindingParam) :
    ∀ (args : List GoVal) (i : Nat), argsMatch params args = true →
      typeCheckLoop params args i = .ok (normalizeArgs params args) := by
  induction params with
  | nil => intro args i _; cases args <;> rfl
  | cons param rest ih =>
    intro args i h
    cases args with
    | nil =>
      simp only [argsMatch, Bool.and_eq_true, Bool.not_eq_true'] at h
      obtain ⟨hreq, hrest⟩ := h
      by_cases hv : param.variadic = true
      · simp only [typeCheckLoop, normalizeArgs, hreq, hv]
        simp only [Bool.false_eq_true, not_false_eq_true, if_false, true_and, if_true,
          ih [] (i + 1) hrest]
        simp
      · simp only [Bool.not_eq_true] at hv
        simp only [typeCheckLoop, normalizeArgs, hreq, hv]
        simp only [Bool.false_eq_true, not_false_eq_true, true_and, if_false, if_true,
          ih [] (i + 1) hrest]
    | cons a as =>
      by_cases hv : param.variadic = true
      · simp only [argsMatch, hv, if_true] at h
        simp only [typeCheckLoop, normalizeArgs, hv, if_true,
          variadicCheck_all_ok param (a :: as) 0 h]
      · simp only [Bool.not_eq_true] at hv
        simp only [argsMatch, hv, Bool.false_eq_true, if_false, Bool.and_eq_true] at h
        obtain ⟨hpass, hrest⟩ := h
        have hpass' : (typeCheckOne param a).2 = true := hpass
        simp only [typeCheckLoop, normalizeArgs, hv, Bool.false_eq_true, if_false, hpass',
          if_true, ih as (i + 1) hrest]

theorem hasVariadic_ne_nil {params : List BindingParam}
    (h : params.any (fun p => p.variadic) = true) : 1 ≤ params.length := by
  cases params with
  | nil => simp [List.any] at h
  | cons p ps => simp

theorem normalizeArgs_length (params : List BindingParam) :
    ∀ (args : List GoVal), variadicOnlyLast params = true →
      (normalizeArgs params args).length =
        (if params.any (fun p => p.variadic) then
          max (params.length - 1) args.length
        else params.length) := by
  induction params with
  | nil => intro args _; simp [normalizeArgs]
  | cons param rest ih =>
    intro args hlast
    simp only [variadicOnlyLast, Bool.and_eq_true, Bool.or_eq_true, Bool.not_eq_true'] at hlast
    obtain ⟨hhead, htail⟩ := hlast
    by_cases hv : param.variadic = true
    · have hrest : rest = [] := by
        rcases hhead with h | h
        · rw [hv] at h; cases h
        · exact List.isEmpty_iff.mp h
      subst hrest
      cases args with
      | nil => simp [normalizeArgs, hv]
      | cons a as => simp [normalizeArgs, hv, List.any]
    · simp only [Bool.not_eq_true] at hv
      cases args with
      | nil =>
        simp only [normalizeArgs, hv, Bool.false_eq_true, if_false, List.length_cons,
          ih [] htail, List.any_cons, hv]
        cases hvr : rest.any fun p => p.variadic
        · simp
        · have h1 := hasVariadic_ne_nil hvr
          simp only [hvr]
          simp only [Bool.false_or, if_true, List.length_nil]
          omega
      | cons a as =>
        simp only [normalizeArgs, hv, Bool.false_eq_true, if_false, List.length_cons,
          ih as htail, List.any_cons, hv]
        cases hvr : rest.any fun p => p.variadic
        · simp
        · have h1 := hasVariadic_ne_nil hvr
          simp only [hvr]
          simp only [Bool.false_or, if_true]
          omega

theorem normalizeArgs_default (params : List BindingParam) :
    ∀ (args : List GoVal) (i : Nat), variadicOnlyLast params = true →
      args.length ≤ i → ∀ param, params.get? i = some param → param.variadic = false →
      (normalizeArgs params args).get? i = some param.defaultValue := by
  induction params with
  | nil => intro args i _ _ param hget; simp at hget
  | cons p rest ih =>
    intro args i hlast hlen param hget hpv
    simp only [variadicOnlyLast, Bool.and_eq_true, Bool.or_eq_true, Bool.not_eq_true'] at hlast
    obtain ⟨hhead, htail⟩ := hlast
    cases args with
    | nil =>
      cases i with
      | zero =>
        simp only [List.get?_cons_zero, Option.some.injEq] at hget
        subst hget
        simp [normalizeArgs, hpv]
      | succ n =>
        simp only [List.get?_cons_succ] at hget
        by_cases hv : p.variadic = true
        · have hrest : rest = [] := by
            rcases hhead with h | h
            · rw [hv] at h; cases h
            · exact List.isEmpty_iff.mp h
          subst hrest
          simp at hget
        · simp only [Bool.not_eq_true] at hv
          simp only [normalizeArgs, hv, Bool.false_eq_true, if_false, List.get?_cons_succ]
          exact ih [] n htail (by simp) param hget hpv
    | cons a as =>
      cases i with
      | zero => simp at hlen
      | succ n =>
        simp only [List.get?_cons_succ] at hget
        simp only [List.length_cons, Nat.add_le_add_iff_right] at hlen
        by_cases hv : p.variadic = true
        · have hrest : rest = [] := by
            rcases hhead with h | h
            · rw [hv] at h; cases h
            · exact List.isEmpty_iff.mp h
          subst hrest
          simp at hget
        · simp only [Bool.not_eq_true] at hv
          simp only [normalizeArgs, hv, Bool.false_eq_true, if_false, List.get?_cons_succ]
          exact ih as n htail hlen param hget hpv

theorem normalizeArgs_flatten (params : List BindingParam) :
    ∀ (args : List GoVal), variadicOnlyLast params = true →
      params.any (fun p => p.variadic) = true → params.length ≤ args.length →
      normalizeArgs params args = args := by
  induction params with
  | nil => intro args _ hvar _; simp [List.any] at hvar
  | cons p rest ih =>
    intro args hlast hvar hlen
    simp only [variadicOnlyLast, Bool.and_eq_true, Bool.or_eq_true, Bool.not_eq_true'] at hlast
    obtain ⟨hhead, htail⟩ := hlast
    by_cases hv : p.variadic = true
    · have hrest : rest = [] := by
        rcases hhead with h | h
        · rw [hv] at h; cases h
        · exact List.isEmpty_iff.mp h
      subst hrest
      cases args with
      | nil => simp at hlen
      | cons a as => simp [normalizeArgs, hv]
    · simp only [Bool.not_eq_true] at hv
      simp only [List.any_cons, hv, Bool.false_eq_true, false_or] at hvar
      cases args with
      | nil =>
        have := hasVariadic_ne_nil hvar
        simp only [List.length_cons, List.length_nil] at hlen
        omega
      | cons a as =>
        simp only [List.length_cons, Nat.add_le_add_iff_right] at hlen
        simp only [normalizeArgs, hv, Bool.false_eq_true, if_false]
        rw [ih as htail hvar hlen]

def c1Params : List BindingParam := [ReqParam "x" (GoVal.int 0), ReqParam "x" (GoVal.int 0)]

def c1Binding : BindingProto := (NewBindingChain 0).SetParamsMethod c1Params

/-- C1: the claim says a structurally invalid parameter list (here two
params named "x") has its schema error checked once, cached on the
binding, and returned by every subsequent schema-consulting call.  In
the code every `bindingProto` method has a value receiver, so the
error `checkParams` computes inside `Params` is recorded only on a
discarded receiver copy: the binding instance itself always carries
`paramErr = nil`, `checkedParams = false`, and `TypeCheckArgs`
therefore never returns the schema error — it happily type-checks
against the invalid schema. -/
theorem c1_schema_error_never_cached :
    checkParams c1Params = some (.dupName "x" 1 0)
    ∧ c1Binding.paramErr = none
    ∧ c1Binding.checkedParams = false
    ∧ (BindingProto.ParamsRun c1Binding).2.paramErr = some (.dupName "x" 1 0)
    ∧ c1Binding.TypeCheckArgs [GoVal.int 1, GoVal.int 2] = .ok [GoVal.int 1, GoVal.int 2] :=
  ⟨rfl, rfl, rfl, rfl, rfl⟩

/-- C2: the amended claim — for a structurally valid schema and a
fully satisfying argument list, `TypeCheckArgs` succeeds and returns
the normalized list with optional gaps filled by the declared defaults
and the variadic tail flattened in place; the length equals the schema
length when there is no variadic param, and `max (schema length - 1,
argument count)` when there is one (an empty variadic tail contributes
nothing, giving schema length - 1). -/
theorem c2_validate_normalizes (b : BindingProto) (params : List BindingParam)
    (args : List GoVal) (hb : b.paramsMethod = some params) (he : b.paramErr = none)
    (hvalid : specStructValid params) (hmatch : argsMatch params args = true) :
    b.TypeCheckArgs args = .ok (normalizeArgs params args)
    ∧ (normalizeArgs params args).length =
        (if params.any (fun p => p.variadic) then max (params.length - 1) args.length
         else params.length)
    ∧ (∀ i, args.length ≤ i → ∀ param, params.get? i = some param → param.variadic = false →
        (normalizeArgs params args).get? i = some param.defaultValue)
    ∧ (params.any (fun p => p.variadic) = true → params.length ≤ args.length →
        normalizeArgs params args = args) := by
  obtain ⟨-, -, hlast, -⟩ := hvalid
  have hcall : b.ParamsCall = params := by
    unfold BindingProto.ParamsCall BindingProto.ParamsRun
    rw [hb]
  have hmain : b.TypeCheckArgs args = .ok (normalizeArgs params args) := by
    unfold BindingProto.TypeCheckArgs
    rw [hcall, he]
    cases params with
    | nil => cases args <;> simp [normalizeArgs]
    | cons p ps => simp [typeCheckLoop_ok _ _ _ hmatch]
  exact ⟨hmain, normalizeArgs_length params args hlast,
    fun i h1 param h2 h3 => normalizeArgs_default params args i hlast h1 param h2 h3,
    fun h1 h2 => normalizeArgs_flatten params args hlast h1 h2⟩

def c2Params : List BindingParam := [ReqParam "a" (GoVal.int 0), VarParam "v" (GoVal.intSlice [])]

def c2Binding : BindingProto := (NewBindingChain 0).SetParamsMethod c2Params

/-- C2 counterexample: a structurally valid schema `(a required int,
v variadic []int)` with the fully satisfying argument list `(5)`
yields a normalized list of length 1, which is neither equal to nor
greater than the schema length 2 — the empty variadic tail contributes
nothing. -/
theorem c2_counterexample :
    specStructValid c2Params
    ∧ argsMatch c2Params [GoVal.int 5] = true
    ∧ c2Binding.TypeCheckArgs [GoVal.int 5] = .ok [GoVal.int 5]
    ∧ ¬c2Params.length ≤ [GoVal.int 5].length :=
  ⟨by decide, rfl, rfl, by decide⟩

/-- C2 witness: the amended theorem applied at the concrete schema
`(a required int, v variadic []int)` with arguments `(5, 7)`. -/
theorem c2_witness :
    c2Binding.TypeCheckArgs [GoVal.int 5, GoVal.int 7]
      = .ok (normalizeArgs c2Params [GoVal.int 5, GoVal.int 7]) :=
  (c2_validate_normalizes c2Binding c2Params [GoVal.int 5, GoVal.int 7] rfl rfl
    (by decide) (by decide)).1

/-- C3: a binding with no parameter-supplier step returns the empty
schema, `TypeCheckArgs` returns the empty argument list whatever the
caller passed, and `Execute` hands the request builder exactly that
empty list — caller-supplied arguments are silently discarded. -/
theorem c3_empty_params_discards_args (b : BindingProto)
    (run : List GoVal → Except String GoVal) (args : List GoVal)
    (hp : b.paramsMethod = none) (he : b.paramErr = none) :
    b.ParamsCall = [] ∧ b.TypeCheckArgs args = .ok []
    ∧ (ExecuteModel b run args).1 = some [] := by
  have h1 : b.ParamsCall = [] := by
    unfold BindingProto.ParamsCall BindingProto.ParamsRun
    rw [hp]
  have h2 : b.TypeCheckArgs args = .ok [] := by
    unfold BindingProto.TypeCheckArgs
    rw [h1, he]
    simp
  refine ⟨h1, h2, ?_⟩
  simp only [ExecuteModel, h2]
  cases hr : run [] <;> simp [hr]

/-- C3 witness: a fresh chain binding (no params method) discards a
junk argument and invokes the request builder with zero arguments. -/
theorem c3_witness :
    (NewBindingChain 5).ParamsCall = []
    ∧ (NewBindingChain 5).TypeCheckArgs [GoVal.str "junk"] = .ok []
    ∧ (ExecuteModel (NewBindingChain 5) (fun _ => .ok (GoVal.int 0)) [GoVal.str "junk"]).1
        = some [] :=
  c3_empty_params_discards_args (NewBindingChain 5) (fun _ => .ok (GoVal.int 0))
    [GoVal.str "junk"] rfl rfl

def c4Params : List BindingParam := [Param "a" (GoVal.int 0), ReqParam "b" (GoVal.int 0)]

/-- C4: the claim says any required param placed after a non-required
one is reported by `checkParams`.  The check's guard
`lastRequiredParam <= i-2` (with `lastRequiredParam` starting at 0)
misses the two-element list `(a optional, b required)`: `checkParams`
accepts it, although the source's own doc comment requires
non-required params to trail all required ones.  The same guard does
fire one position later, as the third conjunct shows. -/
theorem c4_required_after_optional_not_reported :
    (c4Params.get? 0).map BindingParam.required = some false
    ∧ (c4Params.get? 1).map BindingParam.required = some true
    ∧ checkParams c4Params = none
    ∧ checkParams [ReqParam "a" (GoVal.int 0), Param "b" (GoVal.int 0),
        ReqParam "c" (GoVal.int 0)] = some (.reqAfterOptional "c" 2) := by
  decide

/-- What a slot-3 boolean does to the just-appended param: it becomes
the variadic flag, and a true variadic forces required off. -/
def slot3Update (b : Bool) : BindingParam → BindingParam := fun p =>
  { p with variadic := b, required := if b then false else p.required }

/-- C10: a boolean reaching slot 3 of a `Params` tuple sets the
just-appended param's variadic flag and, when true, clears its
required flag; in particular `Params("x", []int{}, false, true)`
produces exactly one variadic, non-required param with the empty
`[]int` default. -/
theorem c10_slot3_sets_variadic :
    (∀ (s : ParamsState) (b : Bool), s.skipUntilName = false → s.currentBindingArg = 3 →
      paramsStep s (.bool b) =
        resetCurrentBinding
          { s with bindingParams := modifyLast (slot3Update b) s.bindingParams })
    ∧ Params [.str "x", .intSlice [], .bool false, .bool true] =
        [{ name := "x", variadic := true, required := false,
           defaultValue := .intSlice [], t := .slice .int, interfaceFlag := false }] := by
  constructor
  · intro s b h1 h2
    obtain ⟨bp, cb, arg, skip⟩ := s
    simp only at h1 h2
    subst h1 h2
    rfl
  · decide

def c10State : ParamsState :=
  { bindingParams := [Param "y" (GoVal.int 0)], currentBinding := emptyBindingParam,
    currentBindingArg := 3, skipUntilName := false }

/-- C10 witness: the slot-3 step applied to a concrete parser state. -/
theorem c10_witness :
    paramsStep c10State (.bool true) =
      resetCurrentBinding
        { c10State with bindingParams := modifyLast (slot3Update true) c10State.bindingParams } :=
  c10_slot3_sets_variadic.1 c10State true rfl rfl

theorem evaluateAttrs_other_ref (hc : Bool) (ref r : Nat) (hr : r ≠ ref) :
    ∀ (queue : List AttrF) (store : AttrStore),
      (evaluateAttrs hc store ref queue).1 r = store r := by
  intro queue
  induction queue with
  | nil => intro store; rfl
  | cons attr rest ih =>
    intro store
    cases h : evaluateAttr hc attr with
    | some kv =>
      obtain ⟨k, v⟩ := kv
      simp only [evaluateAttrs, h]
      rw [ih]
      simp [hr]
    | none =>
      simp only [evaluateAttrs, h]
      rcases hrec : evaluateAttrs hc store ref rest with ⟨store2, queue2⟩
      have h2 := ih store
      rw [hrec] at h2
      simpa using h2

def c9Store : AttrStore := fun _ => []

def c9Binding : BindingWithQueue := { proto := NewBindingChain 0, attrFuncs := [] }

/-- C9 counterexample: `AddAttrs` with an attr that evaluates without
a client writes into the attribute map shared by reference with the
original binding, so the original's observable attribute map changes
from `[]` to `[("k", 7)]` — the claim that every observable part of
the original, including its attribute map, stays unchanged is false. -/
theorem c9_counterexample :
    attrsOf c9Store c9Binding.proto = []
    ∧ attrsOf (AddAttrs c9Store c9Binding [AttrF.pure "k" (GoVal.int 7)]).1 c9Binding.proto
        = [("k", GoVal.int 7)] :=
  ⟨rfl, rfl⟩

/-- C9 amended: every setter returns a new binding snapshot holding
the override and never mutates the original's scalar configuration
(name, paginated flag, step methods, params state); but the attribute
map is shared by reference between original and copy, and `AddAttrs`
evaluates the added attribute functions into that shared map — only
the shared map entry changes (all other store entries are preserved),
and the original binding observes the newly evaluated attributes. -/
theorem c9_setters_copy_scalar_share_attrs (store : AttrStore) (bq : BindingWithQueue)
    (attrs : List AttrF) (r : Nat) (hr : r ≠ bq.proto.attrsRef) :
    ((AddAttrs store bq attrs).2).proto = bq.proto
    ∧ (AddAttrs store bq attrs).1 r = store r
    ∧ attrsOf (AddAttrs store bq attrs).1 bq.proto
        = attrsOf (AddAttrs store bq attrs).1 ((AddAttrs store bq attrs).2).proto
    ∧ (∀ n, (bq.proto.SetName n).name = n ∧ (bq.proto.SetName n).nameSet = true
        ∧ (bq.proto.SetName n).attrsRef = bq.proto.attrsRef
        ∧ (bq.proto.SetName n).paginated = bq.proto.paginated
        ∧ (bq.proto.SetName n).paramsMethod = bq.proto.paramsMethod)
    ∧ (∀ pg, (bq.proto.SetPaginated pg).paginated = pg
        ∧ (bq.proto.SetPaginated pg).name = bq.proto.name
        ∧ (bq.proto.SetPaginated pg).attrsRef = bq.proto.attrsRef)
    ∧ (∀ m, (bq.proto.SetResponseWrapperMethod m).responseWrapperMethodTok = some m
        ∧ (bq.proto.SetResponseWrapperMethod m).attrsRef = bq.proto.attrsRef
        ∧ (bq.proto.SetResponseWrapperMethod m).name = bq.proto.name)
    ∧ (∀ m, (bq.proto.SetResponseUnwrappedMethod m).responseUnwrappedMethodTok = some m
        ∧ (bq.proto.SetResponseUnwrappedMethod m).attrsRef = bq.proto.attrsRef)
    ∧ (∀ m, (bq.proto.SetResponseMethod m).responseMethodTok = some m
        ∧ (bq.proto.SetResponseMethod m).attrsRef = bq.proto.attrsRef)
    ∧ (∀ ps, (bq.proto.SetParamsMethod ps).paramsMethod = some ps
        ∧ (bq.proto.SetParamsMethod ps).attrsRef = bq.proto.attrsRef
        ∧ (bq.proto.SetParamsMethod ps).name = bq.proto.name) := by
  have hstore : (AddAttrs store bq attrs).1 r = store r :=
    evaluateAttrs_other_ref false bq.proto.attrsRef r hr (bq.attrFuncs ++ attrs) store
  have hproto : ((AddAttrs store bq attrs).2).proto = bq.proto := rfl
  refine ⟨hproto, hstore, ?_, ?_, ?_, ?_, ?_, ?_, ?_⟩
  · rw [hproto]
  · intro n; exact ⟨rfl, rfl, rfl, rfl, rfl⟩
  · intro pg; exact ⟨rfl, rfl, rfl⟩
  · intro m; exact ⟨rfl, rfl, rfl⟩
  · intro m; exact ⟨rfl, rfl⟩
  · intro m; exact ⟨rfl, rfl⟩
  · intro ps; exact ⟨rfl, rfl, rfl⟩

/-- C9 witness: the amended theorem applied to a concrete binding,
store and attr, with the frame condition checked at reference 1. -/
theorem c9_witness :
    ((AddAttrs c9Store c9Binding [AttrF.pure "k" (GoVal.int 7)]).2).proto = c9Binding.proto
    ∧ (AddAttrs c9Store c9Binding [AttrF.pure "k" (GoVal.int 7)]).1 1 = c9Store 1 :=
  ⟨(c9_setters_copy_scalar_share_attrs c9Store c9Binding [AttrF.pure "k" (GoVal.int 7)] 1
      (by decide)).1,
   (c9_setters_copy_scalar_share_attrs c9Store c9Binding [AttrF.pure "k" (GoVal.int 7)] 1
      (by decide)).2.1⟩

def c7Pag : PagState :=
  { isRL := false, fetch := fun _ => none, now := 0, params := [Param "page" (GoVal.int 1)],
    paramSet := .pageSet, args := [], page := 1, currentPage := { items := [] },
    retMergeable := false, zeroPage := { items := [] } }

/-- C7: the typed paginator's `Continue` is true whenever the page
counter is 1 and otherwise reduces exactly to the last page's
has-more/non-empty test; the untyped paginator after a fetch behaves
the same — but before any fetch (nil `currentPage`, page 1) its slice
branch calls `reflect.Value.Len` on the zero `reflect.Value` and
panics instead of returning true, contradicting the `Continue` doc
comment and the claim's "returns true unconditionally on page 1". -/
theorem c7_continue_page_one :
    paginatorContinueUntyped false 1 none = .error ()
    ∧ (∀ p : PagState, p.page = 1 → typedContinue p = true)
    ∧ (∀ p : PagState, p.page ≠ 1 →
        (typedContinue p = true ↔
          (if p.retMergeable then p.currentPage.isMergeableVal && p.currentPage.hasMore
           else decide (p.currentPage.items.length > 0)) = true))
    ∧ (∀ (rm : Bool) (page : Nat) (r : RetVal),
        paginatorContinueUntyped rm page (some r) =
          .ok (decide (page = 1) ||
            (if rm then r.isMergeableVal && r.hasMore else decide (r.items.length > 0)))) := by
  refine ⟨rfl, ?_, ?_, ?_⟩
  · intro p hp
    simp [typedContinue, hp]
  · intro p hp
    cases hm : p.retMergeable <;> cases hv : p.currentPage.isMergeableVal <;>
      simp [typedContinue, hp, hm, hv]
  · intro rm page r
    cases rm <;> cases hv : r.isMergeableVal <;> simp [paginatorContinueUntyped, hv]

/-- C7 witness: on a concrete typed paginator state at page 1,
`Continue` is true. -/
theorem c7_witness : typedContinue c7Pag = true :=
  c7_continue_page_one.2.1 c7Pag rfl

def c6Fetch : Nat → Option RateLimitInfo :=
  fun _ => some { reset := 10, remaining := 5, used := 0, kind := .resource }

def c6Pag : PagState :=
  { isRL := true, fetch := c6Fetch, now := 0, limitArg := none,
    params := [Param "limit" (GoVal.int 10), Param "page" (GoVal.int 1)],
    paramSet := .pageSet, args := [], page := 1, currentPage := { items := [] },
    retMergeable := false, zeroPage := { items := [] } }

/-- C6: with a resource-count limit (remaining 5) whose reset is in
the future, an empty just-fetched page, page 1, and a `limit`-named
param whose effective value is its default 10, the claim expects the
driver to locate that value and sleep until reset (10 > 5).  The code
never locates it: `limitArg == nil` tests the outer `**float64`
(the address of the paginator's field, never nil), so the lookup loop
is skipped and `**limitArg` dereferences the nil inner pointer — the
check panics, both in isolation and when reached through `Next`. -/
theorem c6_limit_lookup_panics :
    paginatorCheckRateLimit true c6Fetch 0 (some none) 1 0
      [Param "limit" (GoVal.int 10), Param "page" (GoVal.int 1)] [] = .panicked
    ∧ latestAfterRetries c6Fetch
        = some { reset := 10, remaining := 5, used := 0, kind := .resource }
    ∧ checkRLFromNext c6Pag = .panicked
    ∧ (nextModel (fun _ _ => .ok { items := [GoVal.int 1] }) c6Pag).res = .panicked :=
  ⟨rfl, rfl, rfl, rfl⟩

theorem checkRL_out_ignore (isRL : Bool) (fetch : Nat → Option RateLimitInfo) (now : Int)
    (la : Option (Option Int)) (page currentPageLen : Nat) (params : List BindingParam)
    (args : List GoVal) (ok : Bool) (errO : Option Nat) (sl : Bool)
    (h : paginatorCheckRateLimit isRL fetch now la page currentPageLen params args
          = .out true ok errO sl) :
    isRL = true ∧ page = 1 ∧ ∀ l, latestAfterRetries fetch = some l → l.reset ≤ now := by
  cases isRL with
  | false =>
    simp only [paginatorCheckRateLimit] at h
    simp at h
  | true =>
    simp only [paginatorCheckRateLimit] at h
    rcases hl : latestAfterRetries fetch with _ | rl <;> simp only [hl] at h
    · by_cases hp : page = 1
      · exact ⟨rfl, hp, fun l hll => Option.noConfusion hll⟩
      · simp [hp] at h
    · by_cases hres : rl.reset > now
      · exfalso
        rw [if_pos hres] at h
        cases hk : rl.kind <;> rw [hk] at h
        · simp at h
        · rcases la with _ | la2
          · split_ifs at h <;> simp_all
          · rcases la2 with _ | v
            · split_ifs at h <;> simp_all
            · split_ifs at h <;> simp_all
      · rw [if_neg hres] at h
        by_cases hp : page = 1
        · refine ⟨rfl, hp, fun l hll => ?_⟩
          injection hll with he
          subst he
          omega
        · simp [hp] at h

theorem nextRetry_execCalls_le (exec : Nat → List GoVal → Except String RetVal)
    (argsIns : List GoVal) (p : PagState) (already : Nat) :
    (nextRetry exec argsIns p already).execCalls ≤ already + 1 := by
  rcases h : checkRLFromNext p with _ | ⟨ig, ok2, errO, sl⟩
  · unfold nextRetry
    rw [h]
    simp
  · rcases errO with _ | pg
    · rcases he : exec p.calls argsIns with m | v
      · unfold nextRetry
        rw [h]
        simp [he]
      · unfold nextRetry
        rw [h]
        simp [he]
    · unfold nextRetry
      rw [h]
      simp

def c5Fetch : Nat → Option RateLimitInfo :=
  fun _ => some { reset := 0, remaining := 3, used := 0, kind := .request }

def c5Pag : PagState :=
  { isRL := true, fetch := c5Fetch, now := 5, params := [Param "page" (GoVal.int 1)],
    paramSet := .pageSet, args := [], page := 1, currentPage := { items := [] },
    retMergeable := false, zeroPage := { items := [] } }

def c5Exec : Nat → List GoVal → Except String RetVal := fun _ _ => .error "boom"

/-- C5 counterexample: on page 1 the oracle reports limit data whose
reset time is in the past; the first failed `Execute` is nevertheless
retried (two invocations during one `Next`), so a second invocation
does not happen only when the oracle reported no limit data. -/
theorem c5_counterexample :
    (nextModel c5Exec c5Pag).execCalls = 2
    ∧ c5Pag.fetch 0 = some { reset := 0, remaining := 3, used := 0, kind := .request }
    ∧ (nextModel c5Exec c5Pag).res = .err (.onPageAfterIgnore 1 (.bindingErr "boom")) :=
  ⟨rfl, rfl, rfl⟩

/-- C5 amended: during one `Next`, `binding.Execute` runs at most
twice; a second invocation happens only when the first failed while on
page 1 the rate-limit check found no usable limit (the oracle reported
no data, or a limit whose reset time was not in the future); and a
first-attempt `Execute` failure under a non-ignored check is returned
immediately, wrapped with the current page number, never retried. -/
theorem c5_next_retry_discipline (exec : Nat → List GoVal → Except String RetVal)
    (p : PagState) :
    (nextModel exec p).execCalls ≤ 2
    ∧ ((nextModel exec p).execCalls = 2 →
        p.isRL = true ∧ p.page = 1
        ∧ (∃ m, exec p.calls (nextArgsIns p) = .error m)
        ∧ (∀ l, latestAfterRetries p.fetch = some l → l.reset ≤ p.now))
    ∧ (∀ pv, GetPaginatorParamValue p.paramSet p.params (some p.currentPage) p.page = .ok pv →
        ∀ ig ok sl, checkRLFromNext p = .out ig ok none sl → ig = false →
        ∀ m, exec p.calls (nextArgsIns p) = .error m →
          (nextModel exec p).res = .err (.onPage p.page (.bindingErr m))
          ∧ (nextModel exec p).execCalls = 1) := by
  rcases hg : GetPaginatorParamValue p.paramSet p.params (some p.currentPage) p.page
    with e | pv
  · have hnm : nextModel exec p = ⟨p, .err (.getParamValues p.page), 0⟩ := by
      unfold nextModel
      rw [hg]
    refine ⟨by simp [hnm], by rw [hnm]; intro h2; simp at h2, ?_⟩
    intro pv hpv
    simp at hpv
  · rcases hc : checkRLFromNext p with _ | ⟨ig1, ok1, errO1, sl1⟩
    · have hnm : nextModel exec p = ⟨p, .panicked, 0⟩ := by
        unfold nextModel
        rw [hg, hc]
      refine ⟨by simp [hnm], by rw [hnm]; intro h2; simp at h2, ?_⟩
      intro pv hpv ig ok sl hc2
      simp at hc2
    · rcases errO1 with _ | pg
      · -- the check passed; the first Execute runs
        rcases he : exec p.calls (nextArgsIns p) with m | v
        · -- first attempt failed
          cases hig : ig1 with
          | false =>
            have hnm : nextModel exec p =
                ⟨{ p with usingRateLimitedClient := ok1, currentPage := p.zeroPage, calls := p.calls + 1 },
                  .err (.onPage p.page (.bindingErr m)), 1⟩ := by
              unfold nextModel
              rw [hg, hc, hig]
              simp [he]
            refine ⟨by simp [hnm], by rw [hnm]; intro h2; simp at h2, ?_⟩
            intro pv hpv ig ok sl hc2 hig2 m2 hm2
            rw [hnm]
            injection hm2 with hm2
            subst hm2
            exact ⟨rfl, rfl⟩
          | true =>
            have hcond := checkRL_out_ignore p.isRL p.fetch p.now (some p.limitArg) p.page
              p.currentPage.items.length p.params p.args ok1 none sl1 (by rw [hig] at hc; exact hc)
            have hnm : nextModel exec p =
                nextRetry exec (nextArgsIns p)
                  { p with usingRateLimitedClient := ok1, currentPage := p.zeroPage, calls := p.calls + 1 } 1 := by
              unfold nextModel
              rw [hg, hc, hig]
              simp [he]
            have hle := nextRetry_execCalls_le exec (nextArgsIns p)
              { p with usingRateLimitedClient := ok1, currentPage := p.zeroPage, calls := p.calls + 1 } 1
            refine ⟨by rw [hnm]; omega, ?_, ?_⟩
            · intro _
              exact ⟨hcond.1, hcond.2.1, ⟨m, rfl⟩, hcond.2.2⟩
            · intro pv hpv ig ok sl hc2 hig2 m2 hm2
              injection hc2 with h1 h2 h3 h4
              rw [← h1] at hig2
              simp at hig2
        · -- first attempt succeeded
          have hnm : nextModel exec p =
              ⟨{ p with usingRateLimitedClient := ok1, currentPage := v, page := p.page + 1, calls := p.calls + 1 }, .ok, 1⟩ := by
            unfold nextModel
            rw [hg, hc]
            simp [he]
          refine ⟨by simp [hnm], by rw [hnm]; intro h2; simp at h2, ?_⟩
          intro pv hpv ig ok sl hc2 hig2 m2 hm2
          simp at hm2
      · -- the check itself returned the rate-limit inconsistency error
        cases hig : ig1 with
        | false =>
          have hnm : nextModel exec p =
              ⟨{ p with usingRateLimitedClient := ok1, currentPage := p.zeroPage },
                .err (.onPage p.page (.rlInconsistent pg)), 0⟩ := by
            unfold nextModel
            rw [hg, hc, hig]
            simp
          refine ⟨by simp [hnm], by rw [hnm]; intro h2; simp at h2, ?_⟩
          intro pv hpv ig ok sl hc2 hig2 m2 hm2
          simp at hc2
        | true =>
          have hnm : nextModel exec p =
              nextRetry exec (nextArgsIns p)
                { p with usingRateLimitedClient := ok1, currentPage := p.zeroPage } 0 := by
            unfold nextModel
            rw [hg, hc, hig]
            simp
          have hle := nextRetry_execCalls_le exec (nextArgsIns p)
            { p with usingRateLimitedClient := ok1, currentPage := p.zeroPage } 0
          refine ⟨by rw [hnm]; omega, by rw [hnm]; intro h2; omega, ?_⟩
          intro pv hpv ig ok sl hc2 hig2 m2 hm2
          simp at hc2

/-- C5 witness: a non-rate-limited client's paginator returns the
first Execute failure wrapped with the page number after exactly one
invocation. -/
theorem c5_witness :
    (nextModel c5Exec c7Pag).res = .err (.onPage 1 (.bindingErr "boom"))
    ∧ (nextModel c5Exec c7Pag).execCalls = 1 :=
  c5_next_retry_discipline c5Exec c7Pag |>.2.2 ("page", GoVal.int 1) rfl false false false
    rfl rfl "boom" rfl

/-- A typed page-convention paginator over a slice return type after
`j` successful fetches: page counter `j + 1`, `j` executions consumed,
plain (non-rate-limited) client. -/
def c8State (args : List GoVal) (j : Nat) (cur : RetVal) : PagState :=
  { isRL := false, fetch := fun _ => none, now := 0,
    params := [Param "page" (GoVal.int 1)], paramSet := .pageSet, args := args,
    page := j + 1, currentPage := cur, retMergeable := false,
    zeroPage := { items := [] }, calls := j }

theorem nextArgsIns_c8 (args : List GoVal) (j : Nat) (cur : RetVal) :
    nextArgsIns (c8State args j cur) = GoVal.int (j + 1) :: args := by
  simp [nextArgsIns, c8State, GetPaginatorParamValue, InsertPaginatorParamValues,
    insertPPVLoop, insertAt, Param]

theorem nextModel_c8_ok (exec : Nat → List GoVal → Except String RetVal)
    (args : List GoVal) (j : Nat) (cur v : RetVal)
    (he : exec j (GoVal.int (j + 1) :: args) = .ok v) :
    nextModel exec (c8State args j cur) = ⟨c8State args (j + 1) v, .ok, 1⟩ := by
  unfold nextModel
  rw [show GetPaginatorParamValue (c8State args j cur).paramSet (c8State args j cur).params
      (some (c8State args j cur).currentPage) (c8State args j cur).page
      = .ok ("page", GoVal.int (j + 1)) from rfl]
  rw [show checkRLFromNext (c8State args j cur) = .out false false none false from rfl]
  rw [nextArgsIns_c8]
  simp only [c8State]
  rw [he]

theorem nextModel_c8_err (exec : Nat → List GoVal → Except String RetVal)
    (args : List GoVal) (j : Nat) (cur : RetVal) (m : String)
    (he : exec j (GoVal.int (j + 1) :: args) = .error m) :
    (nextModel exec (c8State args j cur)).res = .err (.onPage (j + 1) (.bindingErr m)) := by
  unfold nextModel
  rw [show GetPaginatorParamValue (c8State args j cur).paramSet (c8State args j cur).params
      (some (c8State args j cur).currentPage) (c8State args j cur).page
      = .ok ("page", GoVal.int (j + 1)) from rfl]
  rw [show checkRLFromNext (c8State args j cur) = .out false false none false from rfl]
  rw [nextArgsIns_c8]
  simp only [c8State]
  rw [he]
  simp

theorem typedContinue_c8 (args : List GoVal) (j : Nat) (cur : RetVal) :
    typedContinue (c8State args j cur) = (decide (j = 0) || decide (cur.items.length > 0)) := by
  have hj : (decide (j + 1 = 1)) = (decide (j = 0)) := by
    rcases Nat.eq_zero_or_pos j with h | h
    · subst h; rfl
    · have h1 : ¬(j + 1 = 1) := by omega
      have h2 : ¬(j = 0) := by omega
      simp [h1, h2]
  simp [typedContinue, c8State, hj]

theorem allLoop_stop (mergeFn : RetVal → RetVal → Except String RetVal)
    (exec : Nat → List GoVal → Except String RetVal) (f : Nat) (p : PagState) (acc : RetVal)
    (hc : typedContinue p = false) :
    allLoop mergeFn exec (f + 1) p acc = some (acc, .done) := by
  simp [allLoop, hc]

theorem allLoop_step_ok (mergeFn : RetVal → RetVal → Except String RetVal)
    (exec : Nat → List GoVal → Except String RetVal) (f : Nat) (p : PagState)
    (acc : RetVal) (st : PagState) (pages2 : RetVal)
    (hc : typedContinue p = true)
    (hn : nextModel exec p = ⟨st, .ok, 1⟩)
    (hm : typedMerge mergeFn st acc = .ok pages2) :
    allLoop mergeFn exec (f + 1) p acc = allLoop mergeFn exec f st pages2 := by
  simp [allLoop, hc, hn, hm]

theorem allLoop_step_err (mergeFn : RetVal → RetVal → Except String RetVal)
    (exec : Nat → List GoVal → Except String RetVal) (f : Nat) (p : PagState)
    (acc : RetVal) (e : NextError)
    (hc : typedContinue p = true) (hres : (nextModel exec p).res = .err e) :
    allLoop mergeFn exec (f + 1) p acc = some (acc, .nextErr e) := by
  simp [allLoop, hc, hres]

theorem c8_allLoop_done (mergeFn : RetVal → RetVal → Except String RetVal)
    (pages : Nat → List GoVal) (k : Nat)
    (hne : ∀ i, i < k → (pages i).length ≠ 0) (hk : (pages k).length = 0) :
    ∀ (fuel j : Nat) (args : List GoVal) (acc cur : RetVal), j ≤ k →
      (j = 0 ∨ cur.items.length ≠ 0) → k + 2 - j ≤ fuel →
      allLoop mergeFn (fun i _ => .ok { items := pages i }) fuel (c8State args j cur) acc
        = some ({ acc with items := acc.items ++ ((List.range' j (k + 1 - j)).map pages).flatten },
            .done) := by
  intro fuel
  induction fuel with
  | zero => intro j args acc cur hj _ hf; omega
  | succ f ih =>
    intro j args acc cur hj hcont hf
    have hcont2 : typedContinue (c8State args j cur) = true := by
      rw [typedContinue_c8]
      rcases hcont with h | h
      · simp [h]
      · have h2 : cur.items.length > 0 := Nat.pos_of_ne_zero h
        simp [h2]
    rw [allLoop_step_ok mergeFn (fun i _ => .ok { items := pages i }) f (c8State args j cur) acc
      (c8State args (j + 1) { items := pages j }) { acc with items := acc.items ++ pages j }
      hcont2
      (nextModel_c8_ok (fun i _ => .ok { items := pages i }) args j cur { items := pages j } rfl)
      (by simp [typedMerge, c8State])]
    by_cases hjk : j = k
    · subst hjk
      rcases f with _ | f2
      · omega
      · rw [allLoop_stop mergeFn (fun i _ => .ok { items := pages i }) f2
          (c8State args (j + 1) { items := pages j }) { acc with items := acc.items ++ pages j }
          (by rw [typedContinue_c8]; simp [hk])]
        rw [show j + 1 - j = 1 from by omega]
        simp [List.range']
    · have hlt : j < k := by omega
      rw [ih (j + 1) args { acc with items := acc.items ++ pages j } { items := pages j }
        (by omega) (by right; exact hne j hlt) (by omega)]
      rw [show k + 1 - j = (k - j) + 1 from by omega,
        show k + 1 - (j + 1) = k - j from by omega]
      simp [List.range', List.append_assoc]

theorem c8_allLoop_err (mergeFn : RetVal → RetVal → Except String RetVal)
    (pages : Nat → List GoVal) (k : Nat) (msg : String)
    (hne : ∀ i, i < k → (pages i).length ≠ 0) :
    ∀ (fuel j : Nat) (args : List GoVal) (acc cur : RetVal), j ≤ k →
      (j = 0 ∨ cur.items.length ≠ 0) → k + 1 - j ≤ fuel →
      allLoop mergeFn (fun i _ => if i < k then .ok { items := pages i } else .error msg) fuel
        (c8State args j cur) acc
        = some ({ acc with items := acc.items ++ ((List.range' j (k - j)).map pages).flatten },
            .nextErr (.onPage (k + 1) (.bindingErr msg))) := by
  intro fuel
  induction fuel with
  | zero => intro j args acc cur hj _ hf; omega
  | succ f ih =>
    intro j args acc cur hj hcont hf
    have hcont2 : typedContinue (c8State args j cur) = true := by
      rw [typedContinue_c8]
      rcases hcont with h | h
      · simp [h]
      · have h2 : cur.items.length > 0 := Nat.pos_of_ne_zero h
        simp [h2]
    by_cases hjk : j = k
    · subst hjk
      rw [allLoop_step_err mergeFn
        (fun i _ => if i < j then .ok { items := pages i } else .error msg) f
        (c8State args j cur) acc (.onPage (j + 1) (.bindingErr msg)) hcont2
        (nextModel_c8_err (fun i _ => if i < j then .ok { items := pages i } else .error msg)
          args j cur msg (by simp))]
      rw [show j - j = 0 from by omega]
      simp
    · have hlt : j < k := by omega
      rw [allLoop_step_ok mergeFn
        (fun i _ => if i < k then .ok { items := pages i } else .error msg) f
        (c8State args j cur) acc (c8State args (j + 1) { items := pages j })
        { acc with items := acc.items ++ pages j } hcont2
        (nextModel_c8_ok (fun i _ => if i < k then .ok { items := pages i } else .error msg)
          args j cur { items := pages j } (by simp [hlt]))
        (by simp [typedMerge, c8State])]
      rw [ih (j + 1) args { acc with items := acc.items ++ pages j } { items := pages j }
        (by omega) (by right; exact hne j hlt) (by omega)]
      rw [show k - j = (k - (j + 1)) + 1 from by omega]
      simp [List.range', List.append_assoc]

/-- C8: for a paginated binding over a slice return type (page
convention, plain client), `All()` returns the concatenation, in fetch
order, of every fetched page's elements, stopping after the first page
with zero items; and when the binding's Execute first fails (at fetch
index `k`), `All()` returns the aggregate of the pages fetched so far
together with the error wrapped with that page's number. -/
theorem c8_all_concatenates (mergeFn : RetVal → RetVal → Except String RetVal)
    (pages : Nat → List GoVal) (k fuel : Nat) (args : List GoVal) (msg : String)
    (hne : ∀ i, i < k → (pages i).length ≠ 0) (hfuel : k + 2 ≤ fuel) :
    ((pages k).length = 0 →
      AllModel mergeFn (fun i _ => .ok { items := pages i }) fuel (c8State args 0 { items := [] })
        = some ({ items := ((List.range (k + 1)).map pages).flatten }, .done))
    ∧ AllModel mergeFn (fun i _ => if i < k then .ok { items := pages i } else .error msg) fuel
        (c8State args 0 { items := [] })
        = some ({ items := ((List.range k).map pages).flatten },
            .nextErr (.onPage (k + 1) (.bindingErr msg))) := by
  constructor
  · intro hk
    have h := c8_allLoop_done mergeFn pages k hne hk fuel 0 args { items := [] } { items := [] }
      (by omega) (by left; rfl) (by omega)
    unfold AllModel
    rw [show (c8State args 0 { items := [] }).zeroPage = ({ items := [] } : RetVal) from rfl]
    rw [h, List.range_eq_range']
    simp
  · have h := c8_allLoop_err mergeFn pages k msg hne fuel 0 args { items := [] } { items := [] }
      (by omega) (by left; rfl) (by omega)
    unfold AllModel
    rw [show (c8State args 0 { items := [] }).zeroPage = ({ items := [] } : RetVal) from rfl]
    rw [h, List.range_eq_range']
    simp

def c8Pages : Nat → List GoVal := fun i => if i = 0 then [GoVal.int 1, GoVal.int 2] else []

/-- C8 witness: a session whose first page holds (1, 2) and whose
second page is empty aggregates to exactly (1, 2). -/
theorem c8_witness :
    AllModel (fun _ _ => .error "unused") (fun i _ => .ok { items := c8Pages i }) 4
      (c8State [] 0 { items := [] })
      = some ({ items := ((List.range 2).map c8Pages).flatten }, .done) :=
  (c8_all_concatenates (fun _ _ => .error "unused") c8Pages 1 4 [] "m"
    (by intro i hi
        have h0 : i = 0 := by omega
        subst h0
        decide)
    (by omega)).1 (by decide)

end Gapi
